import Mathlib

/-!
Verification of the D-Algorithm automatic test-pattern generator.

The development shallowly embeds the repository's three layers:

* `multi_logic.py` — `TriValue` (3-valued logic over interleaved 2-bit codes,
  packed vectors) and `FiveValue` (a pair of `TriValue`s with UNKNOWN
  collapse).  Constructors validate bit patterns, so the operators are
  embedded as `Except String`-valued functions mirroring Python exceptions.
* `logic_blocks.py` — gates, lines and networks.  The engine only ever
  manipulates the five canonical width-1 `FiveValue` constants, so the
  engine layer uses a five-element inductive `FV`; agreement between the
  `FV` operator tables and the `FiveValue` operators (and the code's
  `__eq__`) is proved for all canonical values.
* `d_alg.py` — the implication procedure `imply`, the recursive search
  `D_Algorithm_Recurse` and the driver `D_Algorithm`.  Python's unbounded
  loops and recursion are embedded with an explicit fuel parameter
  (`none` = fuel exhausted); Python `set`s of gates are embedded as
  duplicate-free lists where `set.add` appends if absent, `set.discard`
  filters, and `set.pop` removes the head; `list.pop()` on the assignment
  queue pops the last element, as in Python.
-/

/-! ### TriValue: 3-valued logic over interleaved bit codes -/

/-- `_generate_interleave_mask`: a mask with bit `2*i` set for `i < n`. -/
def imaskN : Nat → Nat
  | 0 => 0
  | n + 1 => imaskN n ||| (1 <<< (2 * n))

/-- `_full_mask`: all `2*n` low bits set. -/
def fullMask (n : Nat) : Nat := (1 <<< (2 * n)) - 1

/-- `_swap_bits`: swap the top and bottom bits of each interleaved pair. -/
def swapBits (val n : Nat) : Nat :=
  ((val &&& imaskN n) <<< 1) ||| ((val >>> 1) &&& imaskN n)

/-- The check mask `(~bottom) & top` of `_check_valid_tri_value_vector`,
with `bottom = val & mask` and `top = (val >> 1) & mask`.  Since `bottom`
and `top` are already restricted to `mask`, the complement-free form
`top & (mask ^ bottom)` denotes the same integer. -/
def checkMask (val n : Nat) : Nat :=
  ((val >>> 1) &&& imaskN n) &&& (imaskN n ^^^ (val &&& imaskN n))

/-- The checks performed by `_check_valid_tri_value_vector`: the value fits
in `2*n` bits and no bit pair is `0b10` (top bit set, bottom bit clear). -/
def validVec (val n : Nat) : Bool :=
  decide (val < 2 ^ (2 * n)) && (checkMask val n == 0)

/-- A `TriValue` object: the stored integer code and the vector size. -/
structure TriValue where
  value : Nat
  vsize : Nat
deriving DecidableEq

/-- `TriValue.__new__` on an `int` argument: store the value, then validate,
raising `ValueError` (modelled as `Except.error`) on a malformed code.
Python checks the bit length first, then the `0b10` pairs. -/
def mkTriValue (val : Nat) (n : Nat := 1) : Except String TriValue :=
  if 2 ^ (2 * n) ≤ val then
    Except.error "Invalid tri-value vector: too many bits for given vector size."
  else if checkMask val n ≠ 0 then
    Except.error "Invalid tri-value vector: some bit pair is 0b10."
  else
    Except.ok ⟨val, n⟩

def triON : TriValue := ⟨0b11, 1⟩
def triOFF : TriValue := ⟨0b00, 1⟩
def triUNK : TriValue := ⟨0b01, 1⟩

/-- `TriValue.__eq__` on two `TriValue`s compares the stored codes only
(the vector size is ignored by the comparison). -/
def triEqB (a b : TriValue) : Bool := a.value == b.value

/-- `TriValue.__invert__`: `TriValue(~swap_bits(value) & full_mask, vsize)`.
`~x & m` on arbitrary-precision ints is the integer `m ^ (x & m)`. -/
def triInvert (v : TriValue) : Except String TriValue :=
  mkTriValue (fullMask v.vsize ^^^ (swapBits v.value v.vsize &&& fullMask v.vsize)) v.vsize

/-- `TriValue.__and__`: asserts equal sizes, then builds
`TriValue(self.value & other.value)` — with the *default* vector size 1. -/
def triAnd (v w : TriValue) : Except String TriValue :=
  if v.vsize ≠ w.vsize then
    Except.error "combining vectors of different sizes is not yet supported"
  else
    mkTriValue (v.value &&& w.value) 1

/-- `TriValue.__or__`: asserts equal sizes, then builds
`TriValue(self.value | other.value, self.vector_size)`. -/
def triOr (v w : TriValue) : Except String TriValue :=
  if v.vsize ≠ w.vsize then
    Except.error "combining vectors of different sizes is not yet supported"
  else
    mkTriValue (v.value ||| w.value) v.vsize

/-- `TriValue.__xor__`: `((~self) & other) | (self & (~other))`. -/
def triXor (v w : TriValue) : Except String TriValue := do
  let nv ← triInvert v
  let a ← triAnd nv w
  let nw ← triInvert w
  let b ← triAnd v nw
  triOr a b

/-- Validity of a stored `TriValue` object, as `_check_valid_tri_value_vector`
would judge its code for its own vector size. -/
def validTB (v : TriValue) : Bool := validVec v.value v.vsize

/-- An operator result is acceptable when it did not raise and its payload is
again a valid code for its size. -/
def validOkB : Except String TriValue → Bool
  | Except.ok r => validTB r
  | Except.error _ => false

/-! ### FiveValue: pairs of TriValues with UNKNOWN collapse -/

/-- A `FiveValue` object: the stored `(good, faulty)` pair of `TriValue`s. -/
structure FiveV where
  good : TriValue
  faulty : TriValue
deriving DecidableEq

/-- `FiveValue.__init__` composed with `_merge_unknowns`: if either component
equals `TriValue.UNKNOWN` (by the code's `__eq__`), store
`(UNKNOWN, UNKNOWN)` instead of the given pair. -/
def mkFiveValue (g f : TriValue) : FiveV :=
  if triEqB g triUNK || triEqB f triUNK then ⟨triUNK, triUNK⟩ else ⟨g, f⟩

def fvOnE : FiveV := mkFiveValue triON triON
def fvOffE : FiveV := mkFiveValue triOFF triOFF
def fvUnknownE : FiveV := mkFiveValue triUNK triUNK
def fvOnIsOffE : FiveV := mkFiveValue triON triOFF
def fvOffIsOnE : FiveV := mkFiveValue triOFF triON

/-- `FiveValue.__eq__`: compares `self.value[0][0]` with `other.value[0][0]`
and `self.value[1][0]` with `other.value[1][0]`; `t[0]` extracts the low bit
pair `t.value & 0b11` and the extracted pairs are compared by
`TriValue.__eq__`, i.e. by code. -/
def fiveEqB (v w : FiveV) : Bool :=
  ((v.good.value &&& 0b11) == (w.good.value &&& 0b11)) &&
    ((v.faulty.value &&& 0b11) == (w.faulty.value &&& 0b11))

/-- `FiveValue.__invert__`: component-wise complement, then the constructor. -/
def fInvert (a : FiveV) : Except String FiveV := do
  let g ← triInvert a.good
  let f ← triInvert a.faulty
  Except.ok (mkFiveValue g f)

/-- `FiveValue.__and__`: component-wise `&`, then the constructor. -/
def fAnd (a b : FiveV) : Except String FiveV := do
  let g ← triAnd a.good b.good
  let f ← triAnd a.faulty b.faulty
  Except.ok (mkFiveValue g f)

/-- `FiveValue.__or__`: component-wise `|`, then the constructor. -/
def fOr (a b : FiveV) : Except String FiveV := do
  let g ← triOr a.good b.good
  let f ← triOr a.faulty b.faulty
  Except.ok (mkFiveValue g f)

/-- `FiveValue.__xor__`: component-wise `^`, then the constructor. -/
def fXor (a b : FiveV) : Except String FiveV := do
  let g ← triXor a.good b.good
  let f ← triXor a.faulty b.faulty
  Except.ok (mkFiveValue g f)

/-- The collapse invariant maintained by the `FiveValue` constructor: if
either stored component equals `UNKNOWN`, the stored pair is exactly
`(UNKNOWN, UNKNOWN)`. -/
def Collapsed (v : FiveV) : Prop :=
  (triEqB v.good triUNK = true ∨ triEqB v.faulty triUNK = true) →
    v = ⟨triUNK, triUNK⟩

/-! ### The engine's value domain

The engine manipulates only the five canonical width-1 `FiveValue`
constants (`ON`, `OFF`, `UNKNOWN`, `ON_IS_OFF`, `OFF_IS_ON`); these are
closed under the operators, and on them the code's `__eq__` coincides with
identity.  The engine layer therefore uses the inductive `FV`; the
`fv*_embed` lemmas below prove that each `FV` operator table agrees with
the `FiveValue` operators of `multi_logic.py` on the canonical values. -/

inductive FV where
  | on
  | off
  | unk
  | d
  | dbar
deriving DecidableEq

/-- `FiveValue.__invert__` restricted to the canonical values. -/
def FV.not : FV → FV
  | .on => .off
  | .off => .on
  | .unk => .unk
  | .d => .dbar
  | .dbar => .d

/-- `FiveValue.__and__` restricted to the canonical values. -/
def FV.and : FV → FV → FV
  | .off, _ => .off
  | _, .off => .off
  | .unk, _ => .unk
  | _, .unk => .unk
  | .on, x => x
  | x, .on => x
  | .d, .d => .d
  | .d, .dbar => .off
  | .dbar, .d => .off
  | .dbar, .dbar => .dbar

/-- `FiveValue.__or__` restricted to the canonical values. -/
def FV.or : FV → FV → FV
  | .on, _ => .on
  | _, .on => .on
  | .unk, _ => .unk
  | _, .unk => .unk
  | .off, x => x
  | x, .off => x
  | .d, .d => .d
  | .d, .dbar => .on
  | .dbar, .d => .on
  | .dbar, .dbar => .dbar

/-- `FiveValue.__xor__` restricted to the canonical values. -/
def FV.xor : FV → FV → FV
  | .unk, _ => .unk
  | _, .unk => .unk
  | .on, .on => .off
  | .on, .off => .on
  | .off, .on => .on
  | .off, .off => .off
  | .on, .d => .dbar
  | .d, .on => .dbar
  | .on, .dbar => .d
  | .dbar, .on => .d
  | .off, .d => .d
  | .d, .off => .d
  | .off, .dbar => .dbar
  | .dbar, .off => .dbar
  | .d, .d => .off
  | .dbar, .dbar => .off
  | .d, .dbar => .on
  | .dbar, .d => .on

/-- The canonical `FiveValue` object denoted by each `FV`. -/
def embedFive : FV → FiveV
  | .on => fvOnE
  | .off => fvOffE
  | .unk => fvUnknownE
  | .d => fvOnIsOffE
  | .dbar => fvOffIsOnE

theorem fvnot_embed : ∀ a : FV, fInvert (embedFive a) = Except.ok (embedFive (FV.not a)) := by
  intro a
  cases a <;> rfl

theorem fvand_embed :
    ∀ a b : FV, fAnd (embedFive a) (embedFive b) = Except.ok (embedFive (FV.and a b)) := by
  intro a b
  cases a <;> cases b <;> rfl

theorem fvor_embed :
    ∀ a b : FV, fOr (embedFive a) (embedFive b) = Except.ok (embedFive (FV.or a b)) := by
  intro a b
  cases a <;> cases b <;> rfl

theorem fvxor_embed :
    ∀ a b : FV, fXor (embedFive a) (embedFive b) = Except.ok (embedFive (FV.xor a b)) := by
  intro a b
  cases a <;> cases b <;> rfl

/-- On canonical values the code's `FiveValue.__eq__` is exactly identity,
so the engine layer may compare `FV` values structurally. -/
theorem fveq_embed : ∀ a b : FV, fiveEqB (embedFive a) (embedFive b) = (a == b) := by
  intro a b
  cases a <;> cases b <;> rfl

/-! ### Network model (`logic_blocks.py`)

Lines and gates are identified by natural numbers.  A gate's kind and
ordered input list are fixed at construction; the gate's output line and
each line's parent gate are the two structural fields mutated by the
engine's fault-injection splice, so they live in (association-list) maps.
A line's consumer list (`children`) is never mutated after construction.
Line values live in a separate association-list state, `getV` defaulting
to UNKNOWN exactly as a fresh `Line` starts at `FiveValue.UNKNOWN`. -/

inductive GKind where
  | gand
  | gnand
  | gor
  | gnor
  | gxor
  | gxnor
  | gnot
deriving DecidableEq

structure GateD where
  kind : GKind
  inputs : List Nat
deriving DecidableEq

structure Env where
  gates : List (Nat × GateD)
  gOut : List (Nat × Nat)
  parent : List (Nat × Option Nat)
  children : List (Nat × List Nat)
deriving DecidableEq

/-- Line values, `line.value` for every line object. -/
abbrev LState := List (Nat × FV)

def getV (st : LState) (l : Nat) : FV :=
  match st.find? (fun p => p.1 == l) with
  | some p => p.2
  | none => FV.unk

def setV (st : LState) (l : Nat) (v : FV) : LState := (l, v) :: st

def gateD (env : Env) (g : Nat) : GateD :=
  match env.gates.find? (fun p => p.1 == g) with
  | some p => p.2
  | none => ⟨GKind.gand, []⟩

def getGOut (env : Env) (g : Nat) : Nat :=
  match env.gOut.find? (fun p => p.1 == g) with
  | some p => p.2
  | none => 0

def getParent (env : Env) (l : Nat) : Option Nat :=
  match env.parent.find? (fun p => p.1 == l) with
  | some p => p.2
  | none => none

def childrenOf (env : Env) (l : Nat) : List Nat :=
  match env.children.find? (fun p => p.1 == l) with
  | some p => p.2
  | none => []

/-- `Line.is_output`: no consuming gates. -/
def isOutput (env : Env) (l : Nat) : Bool := childrenOf env l == []

/-- `reduce` over a gate's input values (Python raises on an empty list;
gates always have at least one input, so the `[]` case is arbitrary). -/
def reduceFV (f : FV → FV → FV) : List FV → FV
  | [] => FV.unk
  | a :: rest => rest.foldl f a

/-- `Gate.forward` for each gate kind, as defined in `logic_blocks.py`. -/
def forwardG (env : Env) (st : LState) (g : Nat) : FV :=
  let ins := (gateD env g).inputs.map (getV st)
  match (gateD env g).kind with
  | GKind.gand => reduceFV FV.and ins
  | GKind.gnand => FV.not (reduceFV FV.and ins)
  | GKind.gor => reduceFV FV.or ins
  | GKind.gnor => FV.not (reduceFV FV.or ins)
  | GKind.gxor => reduceFV FV.xor ins
  | GKind.gxnor => FV.not (reduceFV FV.xor ins)
  | GKind.gnot =>
    match ins with
    | i :: _ => FV.not i
    | [] => FV.unk

/-- The controlling value each gate variant passes to the `Gate` constructor. -/
def ctrlOf : GKind → FV
  | GKind.gand => FV.off
  | GKind.gnand => FV.off
  | GKind.gor => FV.on
  | GKind.gnor => FV.on
  | GKind.gxor => FV.on
  | GKind.gxnor => FV.off
  | GKind.gnot => FV.off

def controllingOf (env : Env) (g : Nat) : FV := ctrlOf (gateD env g).kind

/-- `Gate.has_sensitized_input`: some input carries `ON_IS_OFF` or `OFF_IS_ON`. -/
def hasSens (env : Env) (st : LState) (g : Nat) : Bool :=
  (gateD env g).inputs.any (fun l => getV st l == FV.d || getV st l == FV.dbar)

/-- `Gate.can_imply_output`: the output's current value equals `forward()`. -/
def canImply (env : Env) (st : LState) (g : Nat) : Bool :=
  getV st (getGOut env g) == forwardG env st g

/-! ### The D-Algorithm engine (`d_alg.py`) -/

inductive Dir where
  | bwd
  | fwd
  | both
deriving DecidableEq

/-- `AssignmentQueueItem`. -/
structure QItem where
  line : Nat
  val : FV
  dir : Dir
deriving DecidableEq

/-- `set.add` on the duplicate-free list embedding of a Python set. -/
def addG (s : List Nat) (g : Nat) : List Nat := if s.contains g then s else s ++ [g]

/-- `set.discard`. -/
def removeG (s : List Nat) (g : Nat) : List Nat := s.filter (fun x => x != g)

/-- `AssignmentContext.revert`: replay the recorded `(line, old value)` pairs
in recording order. -/
def revertSt (st : LState) (log : List (Nat × FV)) : LState :=
  log.foldl (fun s p => setV s p.1 p.2) st

/-- `deduce_gate` inside `imply`: recompute the gate's output, enqueue it if
determinate, and update D- and J-frontier membership.  `acc` is the
`(d_front, j_front, assignment_queue)` triple being maintained. -/
def deduceGate (env : Env) (st : LState) (go : Option Nat)
    (acc : List Nat × List Nat × List QItem) : List Nat × List Nat × List QItem :=
  match go, acc with
  | none, acc => acc
  | some g, (d0, j0, q0) =>
    let ded := forwardG env st g
    let out := getGOut env g
    let q := if ded == FV.unk then q0 else q0 ++ [⟨out, ded, Dir.fwd⟩]
    let d := if hasSens env st g && (getV st out == FV.unk) then addG d0 g else removeG d0 g
    let j := if !canImply env st g && !(getV st out == FV.unk) then addG j0 g else removeG j0 g
    (d, j, q)

/-- The result of one `imply` call: success flag, the final frontiers,
queue, visited primary outputs and line values. -/
structure ImplyRes where
  ok : Bool
  d : List Nat
  j : List Nat
  q : List QItem
  vis : List Nat
  st : LState
deriving DecidableEq

/-- The "Propagate the assignment" block of `imply`: `deduce_gate` on the
line's parent for BACKWARDS/BOTH items and on each of the line's children
for FORWARDS/BOTH items, threaded through the (d, j, queue) triple.
`st` is the state *after* the item's assignment. -/
def propagateItem (env : Env) (st : LState) (item : QItem)
    (acc : List Nat × List Nat × List QItem) : List Nat × List Nat × List QItem :=
  if item.dir == Dir.fwd || item.dir == Dir.both then
    (childrenOf env item.line).foldl (fun acc g => deduceGate env st (some g) acc)
      (if item.dir == Dir.bwd || item.dir == Dir.both then
        deduceGate env st (getParent env item.line) acc
      else
        acc)
  else
    if item.dir == Dir.bwd || item.dir == Dir.both then
      deduceGate env st (getParent env item.line) acc
    else
      acc

/-- `imply`: pop the last queue item; record primary outputs as visited;
assign UNKNOWN lines (logging the prior value) and propagate to the parent
and/or children per the item's direction; skip already-equal values; on a
differing known value revert the log and report failure.  `fuel` bounds the
number of loop iterations (the Python loop is unbounded). -/
def imply : Nat → Env → List Nat → List Nat → List QItem → List Nat → LState →
    List (Nat × FV) → Option ImplyRes
  | 0, _, _, _, _, _, _, _ => none
  | fuel + 1, env, d, j, q, vis, st, log =>
    match q.getLast? with
    | none => some ⟨true, d, j, [], vis, st⟩
    | some item =>
      if getV st item.line == FV.unk then
        match propagateItem env (setV st item.line item.val) item (d, j, q.dropLast) with
        | (d2, j2, q2) =>
          imply fuel env d2 j2 q2
            (if isOutput env item.line then addG vis item.line else vis)
            (setV st item.line item.val)
            (log ++ [(item.line, getV st item.line)])
      else if getV st item.line == item.val then
        imply fuel env d j q.dropLast
          (if isOutput env item.line then addG vis item.line else vis) st log
      else
        some ⟨false, d, j, q.dropLast,
          (if isOutput env item.line then addG vis item.line else vis), revertSt st log⟩

/-- `error_at_primary_out`: some visited output holds a sensitized value. -/
def errorAtPrimaryOut (vis : List Nat) (st : LState) : Bool :=
  vis.any (fun l => getV st l == FV.d || getV st l == FV.dbar)

/-- The assignments the propagation phase queues for a selected D-frontier
gate: the complement of the controlling value on every UNKNOWN input. -/
def nonCtrl (env : Env) (st : LState) (g : Nat) : List QItem :=
  (gateD env g).inputs.filterMap (fun l =>
    if getV st l == FV.unk then
      some ⟨l, FV.not (controllingOf env g), Dir.both⟩
    else
      none)

mutual

/-- `D_Algorithm_Recurse`: run `imply`; on contradiction fail; otherwise
propagate the fault (D-frontier loop) when no visited output is sensitized,
or justify remaining signals (J-frontier loop).  Recursive calls receive
copies of the frontiers, queue and visited set, while line values are
shared, so a failed branch's surviving value mutations are threaded on. -/
def dRecurse : Nat → Env → List Nat → List Nat → List QItem → List Nat → LState →
    Option (Bool × LState)
  | 0, _, _, _, _, _, _ => none
  | fuel + 1, env, d, j, q, vis, st =>
    match imply (fuel + 1) env d j q vis st [] with
    | none => none
    | some ⟨ok, d1, j1, q1, vis1, st1⟩ =>
      if ok = false then some (false, st1)
      else if errorAtPrimaryOut vis1 st1 = false then
        propagateLoop fuel env d1 j1 q1 vis1 st1
      else
        justifyLoop fuel env d1 j1 q1 vis1 st1

/-- The propagation phase's `while d_front` loop: pop a gate, queue
non-controlling values on its UNKNOWN inputs, recurse; on success return
success, on failure continue with the remaining frontier (keeping the
queued assignments and any committed values); fail when the frontier is
exhausted. -/
def propagateLoop : Nat → Env → List Nat → List Nat → List QItem → List Nat → LState →
    Option (Bool × LState)
  | 0, _, _, _, _, _, _ => none
  | _ + 1, _, [], _, _, _, st => some (false, st)
  | fuel + 1, env, g :: rest, j, q, vis, st =>
    let q2 := q ++ nonCtrl env st g
    match dRecurse fuel env rest j q2 vis st with
    | none => none
    | some (true, st2) => some (true, st2)
    | some (false, st2) => propagateLoop fuel env rest j q2 vis st2

/-- The justification phase's `while j_front` loop: pop a gate, try its
UNKNOWN inputs (controlling value first, then the complement), and finish
with one more recursion; the loop body always returns, so at most one gate
is processed per invocation. -/
def justifyLoop : Nat → Env → List Nat → List Nat → List QItem → List Nat → LState →
    Option (Bool × LState)
  | 0, _, _, _, _, _, _ => none
  | _ + 1, _, _, [], _, _, st => some (true, st)
  | fuel + 1, env, d, g :: rest, q, vis, st =>
    match justifyInputs fuel env d rest (gateD env g).inputs (controllingOf env g) q vis st with
    | none => none
    | some (true, _, st2) => some (true, st2)
    | some (false, q2, st2) =>
      match dRecurse fuel env d rest q2 vis st2 with
      | none => none
      | some (b, st3) => some (b, st3)

/-- The `for line in gate.inputs` loop of the justification phase: on each
UNKNOWN input append the controlling value and recurse; on failure replace
the appended item by the complement and move on. -/
def justifyInputs : Nat → Env → List Nat → List Nat → List Nat → FV → List QItem →
    List Nat → LState → Option (Bool × List QItem × LState)
  | 0, _, _, _, _, _, _, _, _ => none
  | _ + 1, _, _, _, [], _, q, _, st => some (false, q, st)
  | fuel + 1, env, d, j, l :: rest, c, q, vis, st =>
    if getV st l == FV.unk then
      let q2 := q ++ [⟨l, c, Dir.both⟩]
      match dRecurse fuel env d j q2 vis st with
      | none => none
      | some (true, st2) => some (true, q2, st2)
      | some (false, st2) =>
        justifyInputs fuel env d j rest c (q ++ [⟨l, FV.not c, Dir.both⟩]) vis st2
    else
      justifyInputs fuel env d j rest c q vis st

end

/-- `Network.reset`: set every owned line to UNKNOWN. -/
def resetState (lines : List Nat) (st : LState) : LState :=
  lines.foldl (fun s l => setV s l FV.unk) st

/-- The synthetic spliced line's id: larger than every network line id. -/
def freshLine (lines : List Nat) : Nat := lines.foldr max 0 + 1

/-- The fault-injection splice: create the synthetic line `inc` with the
fault line's original driver as its parent, make that driver's output `inc`
(when there is a driver), and detach the fault line from its driver. -/
def spliceEnv (env : Env) (fault inc : Nat) : Env :=
  match getParent env fault with
  | some g =>
    { env with parent := (fault, none) :: (inc, some g) :: env.parent,
               gOut := (g, inc) :: env.gOut }
  | none =>
    { env with parent := (fault, none) :: (inc, none) :: env.parent }

/-- The `finally` block's restore: reattach the fault line to its original
driver `src` and, when a driver exists, make its output the fault line
again. -/
def restoreEnv (env2 : Env) (src : Option Nat) (fault : Nat) : Env :=
  match src with
  | some g =>
    { env2 with parent := (fault, some g) :: env2.parent,
                gOut := (g, fault) :: env2.gOut }
  | none =>
    { env2 with parent := (fault, none) :: env2.parent }

/-- `D_Algorithm`: reset the network, splice the synthetic `_in` line
between the fault line and its driver, seed the queue per the fault
polarity, run the recursive search, and restore the original structure
before returning (the restore happens on every terminating outcome, as the
Python `finally` block does; `ImplicationError` is never raised).  Returns
the search result, the final line values and the restored structure. -/
def dAlgorithm (fuel : Nat) (env : Env) (netLines : List Nat) (fault : Nat)
    (sa1 : Bool) (st : LState) : Option (Bool × LState × Env) :=
  let inc := freshLine netLines
  let q : List QItem :=
    if sa1 then [⟨inc, FV.off, Dir.bwd⟩, ⟨fault, FV.dbar, Dir.fwd⟩]
    else [⟨inc, FV.on, Dir.bwd⟩, ⟨fault, FV.d, Dir.fwd⟩]
  match dRecurse fuel (spliceEnv env fault inc) [] [] q [] (resetState netLines st) with
  | none => none
  | some (b, st1) =>
    some (b, st1, restoreEnv (spliceEnv env fault inc) (getParent env fault) fault)

/-! ### Concrete networks for the end-to-end scenarios

Line and gate ids follow construction order in each scenario; `children`
lists consumers in construction order (an input used twice by one gate is
registered twice, as the `Gate` constructor appends once per input). -/

/-- `o = AND(a, b)` with `a = 0`, `b = 1`, `o = 2`, the AND gate being
gate `0`. -/
def envAND : Env :=
  { gates := [(0, ⟨GKind.gand, [0, 1]⟩)]
    gOut := [(0, 2)]
    parent := [(2, some 0)]
    children := [(0, [0]), (1, [0])] }

/-- `o = XOR(x, x)` with `x = 0`, `o = 1`, the XOR gate being gate `0`;
`x` is registered as a consumer input twice. -/
def envXORSelf : Env :=
  { gates := [(0, ⟨GKind.gxor, [0, 0]⟩)]
    gOut := [(0, 1)]
    parent := [(1, some 0)]
    children := [(0, [0, 0])] }

/-- A crafted mid-search configuration used to examine the propagation
phase.  Lines: `f = 0` (carrying the fault value D), `u = 1`, `v = 2`,
`w = 3`, and gate outputs `oA = 4`, `oB = 5`, `oJ = 6`, `oK = 7`.  Gates:
`gA = AND(f, u) → oA` (id 0), `gB = AND(f, v) → oB` (id 1),
`gJ = AND(u, w) → oJ` (id 2), `gK = NOT(w) → oK` (id 3). -/
def envC3 : Env :=
  { gates := [(0, ⟨GKind.gand, [0, 1]⟩), (1, ⟨GKind.gand, [0, 2]⟩),
              (2, ⟨GKind.gand, [1, 3]⟩), (3, ⟨GKind.gnot, [3]⟩)]
    gOut := [(0, 4), (1, 5), (2, 6), (3, 7)]
    parent := [(4, some 0), (5, some 1), (6, some 2), (7, some 3)]
    children := [(0, [0, 1]), (1, [0, 2]), (2, [1]), (3, [2, 3])] }

/-- Values at the crafted configuration: the fault value D on `f`, and the
already-justified constraints `oJ = ON`, `oK = ON` (the latter forces
`w = OFF` through the NOT gate while `oJ = ON` needs `w = ON`, so gate
`gA`'s branch, which assigns `u`, runs into an unjustifiable J-frontier). -/
def st0C3 : LState := [(0, FV.d), (6, FV.on), (7, FV.on)]

/-! ### State and set helper lemmas -/

theorem getV_setV_self (st : LState) (l : Nat) (v : FV) : getV (setV st l v) l = v := by
  simp [getV, setV]

theorem getV_setV_ne (st : LState) (l : Nat) (v : FV) (m : Nat) (h : m ≠ l) :
    getV (setV st l v) m = getV st m := by
  unfold getV setV
  rw [List.find?_cons_of_neg]
  simp [Ne.symm h]

theorem revertSt_cons (st : LState) (p : Nat × FV) (log : List (Nat × FV)) :
    revertSt st (p :: log) = revertSt (setV st p.1 p.2) log := rfl

theorem revertSt_append (st : LState) (log : List (Nat × FV)) (p : Nat × FV) :
    revertSt st (log ++ [p]) = setV (revertSt st log) p.1 p.2 := by
  simp [revertSt, List.foldl_append]

theorem getV_revert_notmem (l : Nat) :
    ∀ (log : List (Nat × FV)) (st : LState), l ∉ log.map Prod.fst →
      getV (revertSt st log) l = getV st l := by
  intro log
  induction log with
  | nil => intro st _; rfl
  | cons p rest ih =>
    intro st h
    simp only [List.map_cons, List.mem_cons] at h
    push_neg at h
    rw [revertSt_cons, ih _ h.2, getV_setV_ne _ _ _ _ h.1]

theorem getV_revert_mem_unk (l : Nat) :
    ∀ (log : List (Nat × FV)) (st : LState), (∀ q ∈ log, q.2 = FV.unk) →
      l ∈ log.map Prod.fst → getV (revertSt st log) l = FV.unk := by
  intro log
  induction log with
  | nil => intro st _ h; simp at h
  | cons p rest ih =>
    intro st hU h
    rw [revertSt_cons]
    by_cases hm : l ∈ rest.map Prod.fst
    · exact ih _ (fun q hq => hU q (List.mem_cons_of_mem _ hq)) hm
    · simp only [List.map_cons, List.mem_cons] at h
      rcases h with h | h
      · rw [getV_revert_notmem _ _ _ hm, h, getV_setV_self]
        exact (hU p (List.mem_cons_self _ _)).symm ▸ rfl
      · exact absurd h hm

theorem mem_addG (s : List Nat) (g x : Nat) : x ∈ addG s g ↔ x ∈ s ∨ x = g := by
  unfold addG
  split
  · next h =>
    constructor
    · exact Or.inl
    · rintro (hx | rfl)
      · exact hx
      · exact List.elem_iff.mp h
  · simp

theorem mem_removeG (s : List Nat) (g x : Nat) : x ∈ removeG s g ↔ x ∈ s ∧ x ≠ g := by
  simp [removeG]

/-- Bool form of D-frontier/J-frontier disjointness. -/
def disjB (d j : List Nat) : Bool := d.all (fun g => !(j.contains g))

theorem disjB_iff (d j : List Nat) : disjB d j = true ↔ ∀ g ∈ d, g ∉ j := by
  simp [disjB, List.all_eq_true, List.elem_iff]

/-- `getV` after `reset` is UNKNOWN on owned lines and unchanged elsewhere. -/
theorem getV_resetState (lines : List Nat) :
    ∀ (st : LState) (l : Nat),
      getV (resetState lines st) l = if l ∈ lines then FV.unk else getV st l := by
  induction lines with
  | nil => intro st l; simp [resetState]
  | cons a rest ih =>
    intro st l
    show getV (resetState rest (setV st a FV.unk)) l = _
    rw [ih]
    rcases eq_or_ne l a with rfl | hne
    · by_cases hl : l ∈ rest <;> simp [hl, getV_setV_self]
    · by_cases hl : l ∈ rest <;> simp [hl, hne, getV_setV_ne _ _ _ _ hne]

/-! ### Claims about the logic algebra and the network reset -/

/-- C8: after `Network.reset()` every line owned by the network holds
`FiveValue.UNKNOWN`, and resetting again leaves every line value unchanged
(reset is idempotent). -/
theorem C8_reset_unknown_idempotent (lines : List Nat) (st : LState) :
    (∀ l, l ∈ lines → getV (resetState lines st) l = FV.unk) ∧
    (∀ l, getV (resetState lines (resetState lines st)) l = getV (resetState lines st) l) := by
  constructor
  · intro l hl
    rw [getV_resetState]
    simp [hl]
  · intro l
    rw [getV_resetState, getV_resetState]
    by_cases hl : l ∈ lines <;> simp [hl]

theorem C8_witness :
    getV (resetState [0] []) 0 = FV.unk ∧
      getV (resetState [0] (resetState [0] [])) 0 = getV (resetState [0] []) 0 :=
  ⟨(C8_reset_unknown_idempotent [0] []).1 0 (by decide),
    (C8_reset_unknown_idempotent [0] []).2 0⟩

/-- Valid width-1 codes are exactly 0 (OFF), 1 (UNKNOWN) and 3 (ON). -/
theorem validVec_one (v : Nat) (h : validVec v 1 = true) : v = 0 ∨ v = 1 ∨ v = 3 := by
  have h2 := h
  unfold validVec at h2
  rw [Bool.and_eq_true] at h2
  obtain ⟨h1, hc⟩ := h2
  have h4 : v < 4 := by
    have := of_decide_eq_true h1
    norm_num at this
    exact this
  interval_cases v
  · exact Or.inl rfl
  · exact Or.inr (Or.inl rfl)
  · exact absurd hc (by decide)
  · exact Or.inr (Or.inr rfl)

/-- C2 is false as stated: `FiveValue.ON` and `FiveValue.ON_IS_OFF` have
equal good-circuit components, yet `__eq__` returns `False` on them,
because it also compares the low bit pair of the faulty components. -/
theorem C2_counterexample :
    triEqB fvOnE.good fvOnIsOffE.good = true ∧ fiveEqB fvOnE fvOnIsOffE = false := by
  decide

/-- C2 (amended): `FiveValue.__eq__` compares the low bit pair of the good
components *and* of the faulty components; on width-1 valid components this
is exactly component-wise equality of the stored codes, so the
faulty-circuit component does take part in equality and
`ON != ON_IS_OFF`. -/
theorem C2_amended_eq_componentwise (v w : FiveV)
    (hvg : validTB v.good = true) (hvf : validTB v.faulty = true)
    (hwg : validTB w.good = true) (hwf : validTB w.faulty = true)
    (evg : v.good.vsize = 1) (evf : v.faulty.vsize = 1)
    (ewg : w.good.vsize = 1) (ewf : w.faulty.vsize = 1) :
    fiveEqB v w = true ↔
      v.good.value = w.good.value ∧ v.faulty.value = w.faulty.value := by
  obtain ⟨⟨a, an⟩, ⟨b, bn⟩⟩ := v
  obtain ⟨⟨c, cn⟩, ⟨d, dn⟩⟩ := w
  simp only at evg evf ewg ewf
  subst evg evf ewg ewf
  rcases validVec_one a hvg with rfl | rfl | rfl <;>
    rcases validVec_one b hvf with rfl | rfl | rfl <;>
      rcases validVec_one c hwg with rfl | rfl | rfl <;>
        rcases validVec_one d hwf with rfl | rfl | rfl <;> decide

theorem C2_amended_witness :
    fiveEqB fvOnE fvOffE = true ↔
      fvOnE.good.value = fvOffE.good.value ∧ fvOnE.faulty.value = fvOffE.faulty.value :=
  C2_amended_eq_componentwise fvOnE fvOffE (by decide) (by decide) (by decide) (by decide)
    (by decide) (by decide) (by decide) (by decide)

/-- C6 is false as stated: `TriValue(0b1111, 2)` (both bits ON) is a valid
width-2 vector, but `&` of it with itself raises the validation error,
since `__and__` constructs its result with the default vector size 1 and
the 4-bit result exceeds 2 bits. -/
theorem C6_counterexample :
    validTB ⟨15, 2⟩ = true ∧ validOkB (triAnd ⟨15, 2⟩ ⟨15, 2⟩) = false := by
  decide

/-- C6 (amended): for valid *width-1* operands — the only width the engine
exercises — complement, AND, OR and XOR never raise and always produce a
valid code (never a `0b10` bit pair); for wider vectors AND (and XOR,
which is built from it) can raise, because `__and__` constructs its result
with the default vector size 1. -/
theorem C6_amended_ops_preserve_validity (v w : TriValue)
    (hv : validTB v = true) (hw : validTB w = true)
    (ev : v.vsize = 1) (ew : w.vsize = 1) :
    validOkB (triInvert v) = true ∧ validOkB (triAnd v w) = true ∧
      validOkB (triOr v w) = true ∧ validOkB (triXor v w) = true := by
  obtain ⟨a, an⟩ := v
  obtain ⟨b, bn⟩ := w
  simp only at ev ew
  subst ev ew
  rcases validVec_one a hv with rfl | rfl | rfl <;>
    rcases validVec_one b hw with rfl | rfl | rfl <;> decide

theorem C6_amended_witness :
    validOkB (triInvert triON) = true ∧ validOkB (triAnd triON triUNK) = true ∧
      validOkB (triOr triON triUNK) = true ∧ validOkB (triXor triON triUNK) = true :=
  C6_amended_ops_preserve_validity triON triUNK (by decide) (by decide) rfl rfl

/-- The `FiveValue` constructor always yields a collapsed value. -/
theorem collapsed_mkFiveValue (g f : TriValue) : Collapsed (mkFiveValue g f) := by
  unfold Collapsed mkFiveValue
  split
  · intro _
    rfl
  · next h =>
    intro hc
    simp only [Bool.or_eq_true] at h
    exact absurd hc h

/-- C7: constructing a `FiveValue` from a pair with an UNKNOWN component
stores `(UNKNOWN, UNKNOWN)` and the result equals `FiveValue.UNKNOWN`
under the code's `__eq__`; and every value produced by complement, AND,
OR or XOR satisfies the same collapse invariant, since each operator ends
in the constructor. -/
theorem C7_unknown_collapse :
    (∀ g f : TriValue, (triEqB g triUNK = true ∨ triEqB f triUNK = true) →
        mkFiveValue g f = ⟨triUNK, triUNK⟩ ∧
          fiveEqB (mkFiveValue g f) fvUnknownE = true) ∧
    (∀ a r, fInvert a = Except.ok r → Collapsed r) ∧
    (∀ a b r, fAnd a b = Except.ok r → Collapsed r) ∧
    (∀ a b r, fOr a b = Except.ok r → Collapsed r) ∧
    (∀ a b r, fXor a b = Except.ok r → Collapsed r) := by
  refine ⟨?_, ?_, ?_, ?_, ?_⟩
  · intro g f h
    have hmk : mkFiveValue g f = ⟨triUNK, triUNK⟩ := by
      unfold mkFiveValue
      have hb : (triEqB g triUNK || triEqB f triUNK) = true := by
        rcases h with h | h <;> simp [h]
      simp [hb]
    refine ⟨hmk, ?_⟩
    rw [hmk]
    decide
  · intro a r h
    unfold fInvert at h
    cases h1 : triInvert a.good with
    | error e =>
      rw [h1] at h
      exact Except.noConfusion h
    | ok g =>
      cases h2 : triInvert a.faulty with
      | error e =>
        rw [h1, h2] at h
        exact Except.noConfusion h
      | ok f =>
        rw [h1, h2] at h
        exact (Except.ok.inj h) ▸ collapsed_mkFiveValue g f
  · intro a b r h
    unfold fAnd at h
    cases h1 : triAnd a.good b.good with
    | error e =>
      rw [h1] at h
      exact Except.noConfusion h
    | ok g =>
      cases h2 : triAnd a.faulty b.faulty with
      | error e =>
        rw [h1, h2] at h
        exact Except.noConfusion h
      | ok f =>
        rw [h1, h2] at h
        exact (Except.ok.inj h) ▸ collapsed_mkFiveValue g f
  · intro a b r h
    unfold fOr at h
    cases h1 : triOr a.good b.good with
    | error e =>
      rw [h1] at h
      exact Except.noConfusion h
    | ok g =>
      cases h2 : triOr a.faulty b.faulty with
      | error e =>
        rw [h1, h2] at h
        exact Except.noConfusion h
      | ok f =>
        rw [h1, h2] at h
        exact (Except.ok.inj h) ▸ collapsed_mkFiveValue g f
  · intro a b r h
    unfold fXor at h
    cases h1 : triXor a.good b.good with
    | error e =>
      rw [h1] at h
      exact Except.noConfusion h
    | ok g =>
      cases h2 : triXor a.faulty b.faulty with
      | error e =>
        rw [h1, h2] at h
        exact Except.noConfusion h
      | ok f =>
        rw [h1, h2] at h
        exact (Except.ok.inj h) ▸ collapsed_mkFiveValue g f

theorem C7_witness :
    mkFiveValue triUNK triON = ⟨triUNK, triUNK⟩ ∧
      fiveEqB (mkFiveValue triUNK triON) fvUnknownE = true :=
  C7_unknown_collapse.1 triUNK triON (Or.inl (by decide))

/-! ### End-to-end scenarios -/

/-- C5: for the single AND gate `o = AND(a, b)` with a stuck-at-0 fault on
`o`, the engine succeeds and afterwards the primary inputs hold `a = ON`
and `b = ON`. -/
theorem C5_and_sa0_succeeds_with_on_on :
    (dAlgorithm 20 envAND [0, 1, 2] 2 false []).map
        (fun r => (r.1, getV r.2.1 0, getV r.2.1 1)) =
      some (true, FV.on, FV.on) := by
  decide

/-- C1 is false as stated: for `o = XOR(x, x)` with a stuck-at-1 fault on
`o` the engine returns *success*, not failure. -/
theorem C1_counterexample :
    (dAlgorithm 20 envXORSelf [0, 1] 1 true []).map (fun r => r.1) = some true := by
  decide

/-- C1 (amended): for `o = XOR(x, x)` with a stuck-at-1 fault on `o` the
engine succeeds, with `x = ON` as the generated input: the good output is
structurally 0, so the stuck-at-1 fault is observable on every input
vector (it is the stuck-at-0 fault on `o` that is undetectable). -/
theorem C1_amended_xor_self_sa1_detectable :
    (dAlgorithm 20 envXORSelf [0, 1] 1 true []).map
        (fun r => (r.1, getV r.2.1 0)) =
      some (true, FV.on) := by
  decide

/-- C3 is false as stated: in the crafted configuration `envC3`/`st0C3`
(fault not observed at an output, D-frontier `[gA, gB]` non-empty) the
invocation selects `gA` first and makes the recursive call
`dRecurse 18 envC3 [1] [] [(u, ON, BOTH)] [] st0C3`, which fails; yet the
invocation returns success, because the `while d_front` loop then selects
`gB` and that branch detects the fault. -/
theorem C3_counterexample :
    (dRecurse 18 envC3 [1] [] [⟨1, FV.on, Dir.both⟩] [] st0C3).map (fun r => r.1) =
        some false ∧
      (dRecurse 20 envC3 [0, 1] [] [] [] st0C3).map (fun r => r.1) = some true := by
  constructor
  · decide
  · decide

/-! ### C4: contradiction in `imply` reverts all of the call's mutations -/

/-- Generalized induction: if the log so far records only UNKNOWN prior
values and replaying it restores the entry state `st0`, then a failing
`imply` run returns a state equal to `st0` on every line. -/
theorem imply_false_restores_aux :
    ∀ (fuel : Nat) (env : Env) (d j : List Nat) (q : List QItem) (vis : List Nat)
      (st : LState) (log : List (Nat × FV)) (st0 : LState),
      (∀ p ∈ log, p.2 = FV.unk) →
      (∀ m, getV (revertSt st log) m = getV st0 m) →
      ∀ r, imply fuel env d j q vis st log = some r → r.ok = false →
        ∀ l, getV r.st l = getV st0 l := by
  intro fuel
  induction fuel with
  | zero =>
    intro env d j q vis st log st0 _ _ r h
    exact absurd h (by simp [imply])
  | succ n ih =>
    intro env d j q vis st log st0 hU hR r h hok l
    rw [imply] at h
    split at h
    · cases h
      exact absurd hok (by simp)
    · next item heq =>
      split at h
      · next hv =>
        split at h
        · next d2 j2 q2 hprop =>
          refine ih env d2 j2 q2 _ _ _ st0 ?_ ?_ r h hok l
          · intro p hp
            rcases List.mem_append.mp hp with hp | hp
            · exact hU p hp
            · rcases List.mem_singleton.mp hp with rfl
              simpa using (beq_iff_eq.mp hv)
          · intro m
            rw [revertSt_append]
            have hunk : getV st item.line = FV.unk := by simpa using (beq_iff_eq.mp hv)
            rcases eq_or_ne m item.line with rfl | hm
            · rw [getV_setV_self, hunk, ← hR item.line]
              by_cases hmem : item.line ∈ log.map Prod.fst
              · rw [getV_revert_mem_unk _ _ _ hU hmem]
              · rw [getV_revert_notmem _ _ _ hmem, hunk]
            · rw [getV_setV_ne _ _ _ _ hm]
              by_cases hmem : m ∈ log.map Prod.fst
              · rw [getV_revert_mem_unk _ _ _ hU hmem, ← hR m,
                  getV_revert_mem_unk _ _ _ hU hmem]
              · rw [getV_revert_notmem _ _ _ hmem, getV_setV_ne _ _ _ _ hm, ← hR m,
                  getV_revert_notmem _ _ _ hmem]
      · split at h
        · exact ih env d j q.dropLast _ st log st0 hU hR r h hok l
        · cases h
          exact hR l

/-- C4: whenever the implication procedure pops a queue item whose target
line already holds a known value different from the item's value, it
reverts every line mutation recorded during that same call — every line
again holds the value it held at entry — and returns `False` (the
contradiction is the only way `imply` reports failure; no exception is
raised, the `raise` in the source being commented out). -/
theorem C4_imply_contradiction_reverts (fuel : Nat) (env : Env) (d j : List Nat)
    (q : List QItem) (vis : List Nat) (st : LState) (r : ImplyRes)
    (h : imply fuel env d j q vis st [] = some r) (hok : r.ok = false) :
    ∀ l, getV r.st l = getV st l :=
  imply_false_restores_aux fuel env d j q vis st [] st (by simp)
    (fun _ => rfl) r h hok

theorem C4_witness :
    getV (ImplyRes.st ⟨false, [], [], [], [0], [(0, FV.off)]⟩) 0 =
      getV [(0, FV.off)] 0 :=
  C4_imply_contradiction_reverts 2 ⟨[], [], [], []⟩ [] [] [⟨0, FV.on, Dir.fwd⟩] []
    [(0, FV.off)] ⟨false, [], [], [], [0], [(0, FV.off)]⟩ (by decide) rfl 0

/-! ### C10: the two frontiers stay disjoint -/

/-- The projections of `deduceGate` on a present gate. -/
theorem deduceGate_some_eq (env : Env) (st : LState) (g : Nat)
    (d0 j0 : List Nat) (q0 : List QItem) :
    deduceGate env st (some g) (d0, j0, q0) =
      (if hasSens env st g && (getV st (getGOut env g) == FV.unk) then
          addG d0 g
        else
          removeG d0 g,
        if !canImply env st g && !(getV st (getGOut env g) == FV.unk) then
          addG j0 g
        else
          removeG j0 g,
        if forwardG env st g == FV.unk then
          q0
        else
          q0 ++ [⟨getGOut env g, forwardG env st g, Dir.fwd⟩]) := rfl

/-- One `deduce_gate` call keeps the frontiers disjoint: a gate joins the
D-frontier only when its output is UNKNOWN and the J-frontier only when it
is not, and in each case it is discarded from the other set. -/
theorem deduceGate_disj (env : Env) (st : LState) (go : Option Nat)
    (acc : List Nat × List Nat × List QItem)
    (h : disjB acc.1 acc.2.1 = true) :
    disjB (deduceGate env st go acc).1 (deduceGate env st go acc).2.1 = true := by
  obtain ⟨d0, j0, q0⟩ := acc
  cases go with
  | none => exact h
  | some g =>
    rw [deduceGate_some_eq]
    rw [disjB_iff] at h ⊢
    intro x hx
    by_cases c1 : (hasSens env st g && (getV st (getGOut env g) == FV.unk)) = true
    · rw [if_pos c1] at hx
      have c2 : ¬((!canImply env st g && !(getV st (getGOut env g) == FV.unk)) = true) := by
        rw [Bool.and_eq_true] at c1
        simp [c1.2]
      rw [if_neg c2]
      intro hxj
      rcases (mem_removeG _ _ _).mp hxj with ⟨hxj0, hxg⟩
      rcases (mem_addG _ _ _).mp hx with hx0 | rfl
      · exact h x hx0 hxj0
      · exact hxg rfl
    · rw [if_neg c1] at hx
      rcases (mem_removeG _ _ _).mp hx with ⟨hx0, hxg⟩
      by_cases c2 : (!canImply env st g && !(getV st (getGOut env g) == FV.unk)) = true
      · rw [if_pos c2]
        intro hxj
        rcases (mem_addG _ _ _).mp hxj with hj0 | rfl
        · exact h x hx0 hj0
        · exact hxg rfl
      · rw [if_neg c2]
        intro hxj
        exact h x hx0 ((mem_removeG _ _ _).mp hxj).1

theorem foldl_deduceGate_disj (env : Env) (st : LState) (gs : List Nat) :
    ∀ acc : List Nat × List Nat × List QItem, disjB acc.1 acc.2.1 = true →
      disjB (gs.foldl (fun acc g => deduceGate env st (some g) acc) acc).1
        (gs.foldl (fun acc g => deduceGate env st (some g) acc) acc).2.1 = true := by
  induction gs with
  | nil => intro acc h; exact h
  | cons g rest ih =>
    intro acc h
    exact ih _ (deduceGate_disj env st (some g) acc h)

theorem propagateItem_disj (env : Env) (st : LState) (item : QItem)
    (acc : List Nat × List Nat × List QItem)
    (h : disjB acc.1 acc.2.1 = true) :
    disjB (propagateItem env st item acc).1 (propagateItem env st item acc).2.1 = true := by
  unfold propagateItem
  by_cases hb : (item.dir == Dir.bwd || item.dir == Dir.both) = true
  · rw [if_pos hb]
    by_cases hf : (item.dir == Dir.fwd || item.dir == Dir.both) = true
    · rw [if_pos hf]
      exact foldl_deduceGate_disj env st _ _ (deduceGate_disj env st _ acc h)
    · rw [if_neg hf]
      exact deduceGate_disj env st _ acc h
  · rw [if_neg hb]
    by_cases hf : (item.dir == Dir.fwd || item.dir == Dir.both) = true
    · rw [if_pos hf]
      exact foldl_deduceGate_disj env st _ _ h
    · rw [if_neg hf]
      exact h

/-- C10: the D-frontier and the J-frontier stay disjoint.  Gates enter a
frontier only through the per-gate update of `deduce_gate` inside the
implication procedure, which admits a gate to the D-frontier only when its
output is UNKNOWN (discarding it from the J-frontier) and to the
J-frontier only when its output is known (discarding it from the
D-frontier); the recursion itself only pops elements and passes copies.
Hence `imply` maps disjoint frontiers to disjoint frontiers, and since the
search starts from two empty frontiers, no gate is ever in both sets. -/
theorem C10_frontiers_stay_disjoint :
    ∀ (fuel : Nat) (env : Env) (d j : List Nat) (q : List QItem) (vis : List Nat)
      (st : LState) (log : List (Nat × FV)), disjB d j = true →
      ∀ r, imply fuel env d j q vis st log = some r → disjB r.d r.j = true := by
  intro fuel
  induction fuel with
  | zero =>
    intro env d j q vis st log _ r h
    exact absurd h (by simp [imply])
  | succ n ih =>
    intro env d j q vis st log hdj r h
    rw [imply] at h
    split at h
    · cases h
      exact hdj
    · next item heq =>
      split at h
      · next hv =>
        split at h
        · next d2 j2 q2 hprop =>
          refine ih env d2 j2 q2 _ _ _ ?_ r h
          have hp := propagateItem_disj env (setV st item.line item.val) item
            (d, j, q.dropLast) hdj
          rw [hprop] at hp
          exact hp
      · split at h
        · exact ih env d j q.dropLast _ st log hdj r h
        · cases h
          exact hdj

theorem C10_witness :
    disjB (ImplyRes.d ⟨true, [5], [], [], [], []⟩) (ImplyRes.j ⟨true, [5], [], [], [], []⟩) =
      true :=
  C10_frontiers_stay_disjoint 1 ⟨[], [], [], []⟩ [5] [] [] [] [] [] (by decide)
    ⟨true, [5], [], [], [], []⟩ (by decide)

/-! ### C3 (amended): the propagation loop continues past a failed gate -/

/-- A one-gate configuration (`gA = AND(f, u) → oA` with `f = 0`, `u = 1`,
`oA = 2`) used to exhibit the propagation loop's continuation behaviour. -/
def envW3 : Env :=
  { gates := [(0, ⟨GKind.gand, [0, 1]⟩)]
    gOut := [(0, 2)]
    parent := [(2, some 0)]
    children := [(0, [0]), (1, [0])] }

/-- `f` carries the fault value D and `oA` is preset OFF, so selecting `gA`
leads to a contradiction. -/
def st0W3 : LState := [(0, FV.d), (2, FV.off)]

/-- C3 (amended): in the propagation phase (implication succeeded, fault
not observed at a visited output), one gate `g` is selected from the
D-frontier per loop iteration; when the recursive call made for `g` fails,
the invocation does *not* return failure: it continues the `while d_front`
loop on the remaining frontier, carrying along the queued assignments for
`g` and the failed branch's surviving line values; and a failure is
returned only once the frontier is exhausted (`propagateLoop` on an empty
frontier). -/
theorem C3_amended_propagation_continues
    (f : Nat) (env : Env) (d j : List Nat) (q : List QItem) (vis : List Nat)
    (st : LState) (g : Nat) (rest j1 : List Nat) (q1 : List QItem)
    (vis1 : List Nat) (st1 st2 : LState)
    (himp : imply (f + 2) env d j q vis st [] = some ⟨true, g :: rest, j1, q1, vis1, st1⟩)
    (herr : errorAtPrimaryOut vis1 st1 = false)
    (hfail : dRecurse f env rest j1 (q1 ++ nonCtrl env st1 g) vis1 st1 =
      some (false, st2)) :
    dRecurse (f + 2) env d j q vis st =
        propagateLoop f env rest j1 (q1 ++ nonCtrl env st1 g) vis1 st2 ∧
      propagateLoop (f + 1) env [] j1 q1 vis1 st2 = some (false, st2) := by
  constructor
  · show dRecurse (f + 1 + 1) env d j q vis st = _
    rw [dRecurse, himp]
    simp only [herr, Bool.true_eq_false, if_false, if_true]
    rw [propagateLoop, hfail]
  · rw [propagateLoop]

theorem C3_amended_witness :
    dRecurse 12 envW3 [0] [] [] [] st0W3 =
        propagateLoop 10 envW3 [] [] ([] ++ nonCtrl envW3 st0W3 0) []
          [(1, FV.unk), (1, FV.on), (0, FV.d), (2, FV.off)] ∧
      propagateLoop 11 envW3 [] [] [] []
          [(1, FV.unk), (1, FV.on), (0, FV.d), (2, FV.off)] =
        some (false, [(1, FV.unk), (1, FV.on), (0, FV.d), (2, FV.off)]) :=
  C3_amended_propagation_continues 10 envW3 [0] [] [] [] st0W3 0 [] [] [] []
    st0W3 [(1, FV.unk), (1, FV.on), (0, FV.d), (2, FV.off)]
    (by decide) (by decide) (by decide)

/-! ### C9: the run restores the network structure -/

theorem le_foldr_max (lines : List Nat) : ∀ l ∈ lines, l ≤ lines.foldr max 0 := by
  induction lines with
  | nil => simp
  | cons a rest ih =>
    intro l hl
    rcases List.mem_cons.mp hl with rfl | hl
    · exact le_max_left _ _
    · exact le_trans (ih l hl) (le_max_right _ _)

/-- Undoing the splice restores the parent of every line other than the
synthetic one, provided the restore uses the fault line's original
driver. -/
theorem restore_splice_parent (env : Env) (fault inc l : Nat) (hne : l ≠ inc) :
    getParent (restoreEnv (spliceEnv env fault inc) (getParent env fault) fault) l =
      getParent env l := by
  rcases hsrc : getParent env fault with _ | g
  · unfold restoreEnv spliceEnv
    rw [hsrc]
    rcases eq_or_ne l fault with rfl | hf
    · rw [hsrc]
      unfold getParent
      rw [List.find?_cons_of_pos _ (by simp)]
    · unfold getParent
      rw [List.find?_cons_of_neg _ (by simp [Ne.symm hf]),
        List.find?_cons_of_neg _ (by simp [Ne.symm hf]),
        List.find?_cons_of_neg _ (by simp [Ne.symm hne])]
  · unfold restoreEnv spliceEnv
    rw [hsrc]
    rcases eq_or_ne l fault with rfl | hf
    · rw [hsrc]
      unfold getParent
      rw [List.find?_cons_of_pos _ (by simp)]
    · unfold getParent
      rw [List.find?_cons_of_neg _ (by simp [Ne.symm hf]),
        List.find?_cons_of_neg _ (by simp [Ne.symm hf]),
        List.find?_cons_of_neg _ (by simp [Ne.symm hne])]

/-- Undoing the splice restores every gate's output line, given that the
fault line's driver (when present) did drive the fault line. -/
theorem restore_splice_gOut (env : Env) (fault inc gid : Nat)
    (hc : ∀ g, getParent env fault = some g → getGOut env g = fault) :
    getGOut (restoreEnv (spliceEnv env fault inc) (getParent env fault) fault) gid =
      getGOut env gid := by
  rcases hsrc : getParent env fault with _ | g
  · unfold restoreEnv spliceEnv
    rw [hsrc]
    rfl
  · unfold restoreEnv spliceEnv
    rw [hsrc]
    rcases eq_or_ne gid g with rfl | hg
    · unfold getGOut
      rw [List.find?_cons_of_pos _ (by simp)]
      exact (hc gid hsrc).symm
    · unfold getGOut
      rw [List.find?_cons_of_neg _ (by simp [Ne.symm hg]),
        List.find?_cons_of_neg _ (by simp [Ne.symm hg])]

/-- C9: whatever the search outcome, `D_Algorithm` restores the network's
structure before returning: the fault line's parent is its original
driver again, that driver's output line is the fault line again, and the
synthetic spliced line is outside the network, so the parent of every
network line, the output of every gate, and all children lists equal
their pre-run values.  (The embedding is total: exceptions cannot escape,
mirroring the `finally` block, and the commented-out `raise` never runs.) -/
theorem C9_run_restores_structure
    (fuel : Nat) (env : Env) (netLines : List Nat) (fault : Nat) (sa1 : Bool)
    (st : LState) (b : Bool) (st1 : LState) (env' : Env)
    (hc : ∀ g, getParent env fault = some g → getGOut env g = fault)
    (h : dAlgorithm fuel env netLines fault sa1 st = some (b, st1, env')) :
    (∀ l ∈ netLines, getParent env' l = getParent env l) ∧
      (∀ gid, getGOut env' gid = getGOut env gid) ∧
      env'.children = env.children := by
  simp only [dAlgorithm] at h
  split at h
  · exact absurd h (by simp)
  · next b2 st2 hres =>
    rw [Option.some.injEq] at h
    obtain ⟨rfl, rfl, rfl⟩ := h
    refine ⟨?_, ?_, ?_⟩
    · intro l hl
      have hlt : l ≠ freshLine netLines := by
        have := le_foldr_max netLines l hl
        unfold freshLine
        omega
      exact restore_splice_parent env fault _ l hlt
    · intro gid
      exact restore_splice_gOut env fault _ gid hc
    · rcases hsrc : getParent env fault with _ | g <;>
        simp [restoreEnv, spliceEnv, hsrc]

theorem C9_witness :
    getParent
        (restoreEnv (spliceEnv envAND 2 (freshLine [0, 1, 2])) (getParent envAND 2) 2) 2 =
      getParent envAND 2 :=
  (C9_run_restores_structure 20 envAND [0, 1, 2] 2 false [] true
      [(0, FV.on), (1, FV.on), (1, FV.unk), (1, FV.off), (0, FV.unk), (0, FV.off),
        (3, FV.on), (2, FV.d), (2, FV.unk), (1, FV.unk), (0, FV.unk)]
      (restoreEnv (spliceEnv envAND 2 (freshLine [0, 1, 2])) (getParent envAND 2) 2)
      (by decide) (by decide)).1 2 (by decide)
